import Mathlib

/-!
Shallow embedding of the incremental crawl-and-ingest pipeline of
`download.py` (dashboard_hidroelectricas): the cursor reader
`obtener_ultima_fecha`, the exclusion test `es_directorio_excluido`, the
file-level freshness filter `es_archivo_reciente` (including the CPython
`strptime('%Y%m%d')` matching it relies on), the record-level freshness
filter of `procesar_archivo_ftp`, the per-record ingestor
`insertar_datos`, and the recursive walker `explorar_directorio`.

Modelling conventions:
- SQL timestamps are modelled as a calendar date plus a second-of-day
  count (`Timestamp`), ordered lexicographically; `datetime.date()` is
  the projection onto the `Fecha` component.
- Floats are modelled as rationals; `float(<string>)` is modelled on
  plain decimal literals (optional sign, integer and fractional digits);
  exponent/inf/nan forms are not exercised by any theorem below.
- Database effects are modelled by explicit state: a table is the list
  of its committed rows, and the outcome of one `INSERT` is given by an
  oracle `insertOk : Row → List Row → Bool` (e.g. a uniqueness
  constraint is the oracle rejecting a row already present).  `commit`
  appends the row, `rollback` leaves the list unchanged.
- FTP effects: a directory listing is the parsed list of its entries
  (directory bit plus name); `ftp.dir` raising on a given working
  directory is modelled by an oracle `dirFalla : List String → Bool`,
  and a propagating exception is the `Except.error` carrying the
  session's working directory at the moment of the raise.
- `print` logging is not modelled; counters are.
-/

namespace Hidro

/-- Calendar date (the value of `datetime.date()`). -/
structure Fecha where
  y : Nat
  m : Nat
  d : Nat
deriving DecidableEq, Repr

/-- Lexicographic `≤` on dates, as Python compares `date` objects. -/
def Fecha.leb (a b : Fecha) : Bool :=
  decide (a.y < b.y ∨ (a.y = b.y ∧ (a.m < b.m ∨ (a.m = b.m ∧ a.d ≤ b.d))))

/-- A full timestamp: date plus seconds within the day (the value of a
`datetime`, as stored in `fecha_toma_dato`). -/
structure Timestamp where
  date : Fecha
  time : Nat
deriving DecidableEq, Repr

/-- Lexicographic `≤` on timestamps, as Python compares `datetime`s. -/
def Timestamp.leb (a b : Timestamp) : Bool :=
  decide (a.date.y < b.date.y ∨ (a.date.y = b.date.y ∧
    (a.date.m < b.date.m ∨ (a.date.m = b.date.m ∧
      (a.date.d < b.date.d ∨ (a.date.d = b.date.d ∧ a.time ≤ b.time))))))

/-- Lexicographic `<` on timestamps. -/
def Timestamp.ltb (a b : Timestamp) : Bool :=
  decide (a.date.y < b.date.y ∨ (a.date.y = b.date.y ∧
    (a.date.m < b.date.m ∨ (a.date.m = b.date.m ∧
      (a.date.d < b.date.d ∨ (a.date.d = b.date.d ∧ a.time < b.time))))))

/-- Model of `SELECT MAX(fecha_toma_dato)`: `None` on an empty table, else the
largest stored timestamp. -/
def max_fecha? (tabla : List Timestamp) : Option Timestamp :=
  tabla.foldl (fun acc t =>
    match acc with
    | none => some t
    | some m => if m.leb t then some t else some m) none

/-- Embeds `obtener_ultima_fecha` (download.py:30-40): runs
`SELECT MAX(fecha_toma_dato) FROM temporales.<tabla>` and returns the
fetched value; any exception is caught and yields `None`.  `falla`
models the query raising. -/
def obtener_ultima_fecha (falla : Bool) (tabla : List Timestamp) : Option Timestamp :=
  if falla then none else max_fecha? tabla

/-- Python `str.lower()` on the character sequence (ASCII suffices for
the names involved). -/
def lowerChars (cs : List Char) : List Char := cs.map Char.toLower

/-- Embeds `es_directorio_excluido` (download.py:225-231): exclude exactly the
directories whose lowercased name is `"historica"`. -/
def es_directorio_excluido (nombre : String) : Bool :=
  lowerChars nombre.data == "historica".data

/-- Python `str.split(sep)` for a one-character separator: split at
every occurrence, keeping empty segments. -/
def splitChar (sep : Char) : List Char → List (List Char)
  | [] => [[]]
  | c :: r =>
    if c == sep then [] :: splitChar sep r
    else
      match splitChar sep r with
      | s :: ss => (c :: s) :: ss
      | [] => [[c]]

/-- Python `str.startswith(pre)` on character sequences. -/
def empiezaCon : List Char → List Char → Bool
  | [], _ => true
  | _ :: _, [] => false
  | p :: ps, c :: cs => p == c && empiezaCon ps cs

/-- Python `str.endswith(suf)` on character sequences. -/
def terminaCon (suf cs : List Char) : Bool :=
  empiezaCon suf.reverse cs.reverse

/-- Numeric value of a digit list (most significant first). -/
def digitsToNat (l : List Char) : Nat :=
  l.foldl (fun acc c => 10 * acc + (c.toNat - 48)) 0

/-- Gregorian leap-year test, as `datetime` uses. -/
def esBisiesto (y : Nat) : Bool :=
  y % 4 == 0 && (y % 100 != 0 || y % 400 == 0)

/-- Days in a month, as `datetime` validates day-of-month. -/
def diasEnMes (y m : Nat) : Nat :=
  if m == 2 then (if esBisiesto y then 29 else 28)
  else if m == 4 || m == 6 || m == 9 || m == 11 then 30
  else 31

/-- The CPython `%m` regex `1[0-2]|0[1-9]|[1-9]`: the alternatives that
match a given character stream, in the regex's backtracking order, each
with the leftover stream. -/
def matchMes (cs : List Char) : List (Nat × List Char) :=
  (match cs with
   | '1' :: c :: r => if '0' ≤ c && c ≤ '2' then [(10 + (c.toNat - 48), r)] else []
   | _ => []) ++
  (match cs with
   | '0' :: c :: r => if '1' ≤ c && c ≤ '9' then [(c.toNat - 48, r)] else []
   | _ => []) ++
  (match cs with
   | c :: r => if '1' ≤ c && c ≤ '9' then [(c.toNat - 48, r)] else []
   | _ => [])

/-- The CPython `%d` regex `3[01]|[12]\d|0[1-9]|[1-9]`, same convention
as `matchMes`. -/
def matchDia (cs : List Char) : List (Nat × List Char) :=
  (match cs with
   | '3' :: c :: r => if c == '0' || c == '1' then [(30 + (c.toNat - 48), r)] else []
   | _ => []) ++
  (match cs with
   | c1 :: c2 :: r =>
     if ('1' ≤ c1 && c1 ≤ '2') && c2.isDigit then
       [(10 * (c1.toNat - 48) + (c2.toNat - 48), r)] else []
   | _ => []) ++
  (match cs with
   | '0' :: c :: r => if '1' ≤ c && c ≤ '9' then [(c.toNat - 48, r)] else []
   | _ => []) ++
  (match cs with
   | c :: r => if '1' ≤ c && c ≤ '9' then [(c.toNat - 48, r)] else []
   | _ => [])

/-- Model of `datetime.strptime(s, '%Y%m%d')`, as CPython implements it: `%Y` is
exactly four digits, then the first month/day regex match in
backtracking order is taken; the match must consume the whole string
(`found.end()` check), and the resulting values must form a real
calendar date (else `datetime` raises).  `none` models `ValueError`. -/
def strptimeYmd (s : List Char) : Option Fecha :=
  match s with
  | c1 :: c2 :: c3 :: c4 :: rest =>
    if [c1, c2, c3, c4].all Char.isDigit then
      let y := digitsToNat [c1, c2, c3, c4]
      match (matchMes rest).findSome? (fun mr =>
        ((matchDia mr.2).head?).map (fun dr => (mr.1, dr.1, dr.2))) with
      | some (m, d, resto) =>
        if resto.isEmpty && 1 ≤ y && d ≤ diasEnMes y m then
          some ⟨y, m, d⟩
        else none
      | none => none
    else none
  | _ => none

/-- Embeds `es_archivo_reciente` (download.py:233-253): absent baseline admits;
otherwise, if the name has an underscore, the first `_`-delimited token
beginning with `"202"` is parsed as `%Y%m%d` and the file is admitted
iff its date is not strictly older than the baseline's date; no such
token, an unparsable token, or no underscore at all admits (fail open,
the `except` / fall-through `return True`). -/
def es_archivo_reciente (nombre_archivo : String) (ultima_fecha : Option Timestamp) : Bool :=
  match ultima_fecha with
  | none => true
  | some uf =>
    if nombre_archivo.data.contains '_' then
      match (splitChar '_' nombre_archivo.data).find? (fun p => empiezaCon "202".data p) with
      | some parte =>
        match strptimeYmd parte with
        | some fecha_archivo => Fecha.leb uf.date fecha_archivo
        | none => true
      | none => true
    else true

/-- One decoded JSON object of a data file: the values under `'Date'`
(parsed), `'N_Common'` and `'Value'`; `none` models an absent key /
JSON `null`. -/
structure Dato where
  date : Option Timestamp
  nCommon : Option String
  value : Option String
deriving DecidableEq, Repr

/-- The record-level freshness filter of `procesar_archivo_ftp`
(download.py:272-280): with a baseline, keep the records that have a
`'Date'` key whose timestamp is strictly greater than the baseline;
with no baseline the list is passed through unfiltered. -/
def filtrar_datos (ultima_fecha : Option Timestamp) (datos : List Dato) : List Dato :=
  match ultima_fecha with
  | none => datos
  | some uf =>
    datos.filter (fun dato =>
      match dato.date with
      | some t => uf.ltb t
      | none => false)

/-- Python `float(<string>)` on plain decimal literals: optional sign,
then digits with an optional single point; at least one digit overall.
`none` models `ValueError` (in particular on non-numeric text). -/
def parseFloat (s : String) : Option ℚ :=
  let cs := s.data
  let signo : ℚ × List Char :=
    match cs with
    | '-' :: r => (-1, r)
    | '+' :: r => (1, r)
    | _ => (1, cs)
  let ent := signo.2.takeWhile Char.isDigit
  let resto := signo.2.dropWhile Char.isDigit
  match resto with
  | [] =>
    if ent.isEmpty then none
    else some (signo.1 * (digitsToNat ent : ℚ))
  | '.' :: frac =>
    if frac.all Char.isDigit && !(ent.isEmpty && frac.isEmpty) then
      some (signo.1 * ((digitsToNat ent : ℚ) + (digitsToNat frac : ℚ) / (10 : ℚ) ^ frac.length))
    else none
  | _ => none

/-- Model of `round(x, 3)`, on rationals (ties are immaterial to the claims). -/
def round3 (q : ℚ) : ℚ := (round (q * 1000) : ℤ) / 1000

/-- The station registry loaded by `cargar_coordenadas_manual`
(download.py:42-63): name to (latitude, longitude). -/
def estaciones : List (String × ℚ × ℚ) :=
  [("Agoyan", (-13977000 / 10000000, -783829000 / 10000000)),
   ("Coca Codo Sinclair", (-1989618 / 10000000, -776827073 / 10000000)),
   ("Delsitanisagua", (-39803410 / 10000000, -790169830 / 10000000)),
   ("Mazar", (-25972000 / 10000000, -786221000 / 10000000)),
   ("M_S_Francisco", (-33150547 / 10000000, -794821319 / 10000000)),
   ("Pisayambo", (-10744510 / 10000000, -783968000 / 10000000)),
   ("Daule_Peripa", (-9269476 / 10000000, -797482363 / 10000000)),
   ("Amaluza", (-25859180 / 10000000, -785583440 / 10000000)),
   ("Amaluza_Total", (-25859180 / 10000000, -785583440 / 10000000)),
   ("Amaluza_Laterales", (-25859180 / 10000000, -785583440 / 10000000))]

/-- The `nombre_estacion in estaciones` dictionary lookup; a `None` name is
not a key. -/
def buscarEstacion (nombre : Option String) : Option (ℚ × ℚ) :=
  match nombre with
  | none => none
  | some n => (estaciones.find? (fun p => p.1 == n)).map (fun p => p.2)

/-- One row of `temporales.caudales` / `temporales.nivel` as inserted by
`insertar_datos`: `(Latitud, Longitud, nombre_estacion, fecha_toma_dato,
valor_1h)`; `none` fields are SQL `NULL`. -/
structure Row where
  latitud : ℚ
  longitud : ℚ
  nombre_estacion : Option String
  fecha_toma_dato : Option Timestamp
  valor_1h : ℚ
deriving DecidableEq, Repr

/-- Ingestor state: committed rows of the table, successful-insert
counter, failed-insert counter. -/
structure EstadoBD where
  filas : List Row
  insertados : Nat
  fallidos : Nat
deriving DecidableEq, Repr

/-- The body of `insertar_datos`'s per-record loop (download.py:132-178)
for one `dato`: a `None` `'Value'` or a non-numeric one is skipped with
a warning (`continue`, no counter); coordinates come from the registry
with `(0.0, 0.0)` fallback; the `INSERT` runs in its own transaction —
commit and count on success, rollback (state unchanged) and count a
failure otherwise.  `insertOk` is the oracle for the insert outcome
given the committed table. -/
def procesar_dato (insertOk : Row → List Row → Bool) (st : EstadoBD) (dato : Dato) : EstadoBD :=
  match dato.value with
  | none => st
  | some valor_texto =>
    match parseFloat valor_texto with
    | none => st
    | some v =>
      let valor := round3 v
      let coords : ℚ × ℚ :=
        match buscarEstacion dato.nCommon with
        | some c => c
        | none => (0, 0)
      let row : Row := ⟨coords.1, coords.2, dato.nCommon, dato.date, valor⟩
      if insertOk row st.filas then
        { st with filas := st.filas ++ [row], insertados := st.insertados + 1 }
      else
        { st with fallidos := st.fallidos + 1 }

/-- Embeds `insertar_datos` (download.py:119-188): process each record of the
batch in its own transaction, accumulating the success/failure
counters, starting from the table's current committed rows. -/
def insertar_datos (insertOk : Row → List Row → Bool) (filas : List Row) (datos : List Dato) : EstadoBD :=
  datos.foldl (procesar_dato insertOk) ⟨filas, 0, 0⟩

/-- The row `procesar_dato` builds from a record, when the record's
value admits one (independent of the table state). -/
def toRow (dato : Dato) : Option Row :=
  match dato.value with
  | none => none
  | some valor_texto =>
    match parseFloat valor_texto with
    | none => none
    | some v =>
      let coords : ℚ × ℚ :=
        match buscarEstacion dato.nCommon with
        | some c => c
        | none => (0, 0)
      some ⟨coords.1, coords.2, dato.nCommon, dato.date, round3 v⟩

/-- The per-file tail of `procesar_archivo_ftp` (download.py:271-282)
once the payload decoded: filter the records against the baseline, then
hand them to `insertar_datos`. -/
def procesar_registros (insertOk : Row → List Row → Bool) (filas : List Row)
    (ultima_fecha : Option Timestamp) (datos : List Dato) : EstadoBD :=
  insertar_datos insertOk filas (filtrar_datos ultima_fecha datos)

/-- A parsed entry of an FTP directory listing: the directory bit of the
listing line plus the entry's name, with a directory's own listing
attached (the remote tree). -/
inductive FEntry where
  | dir (nombre : String) (hijos : List FEntry)
  | file (nombre : String)
deriving Repr

/-- The entry loop of `explorar_directorio` (download.py:300-328) run at
working directory `cwd`: excluded directories are skipped without
descending; other directories are entered (`navegar_ftp`), explored
recursively at depth+1, and the saved directory is restored with
`ftp.cwd(dir_actual)` only when the recursive call returns normally — an
exception propagates out of the loop immediately; `.json` files are
handed to `procesar_archivo_ftp` (collected here by full path).
`dirFalla p` models `ftp.dir` raising when the working directory is `p`;
`Except.error p` is that exception propagating with the session left at
`p`.  A listed directory is assumed navigable (`navegar_ftp` failures
are connectivity events, modelled by `dirFalla`). -/
def explorar_lista (dirFalla : List String → Bool) (cwd : List String)
    (prof max_prof : Nat) : List FEntry → Except (List String) (List (List String))
  | [] => .ok []
  | .dir nombre hijos :: resto =>
    if es_directorio_excluido nombre then
      explorar_lista dirFalla cwd prof max_prof resto
    else
      let hijo := cwd ++ [nombre]
      let sub : Except (List String) (List (List String)) :=
        if prof + 1 > max_prof then .ok []
        else if dirFalla hijo then .error hijo
        else explorar_lista dirFalla hijo (prof + 1) max_prof hijos
      match sub with
      | .error p => .error p
      | .ok fs =>
        match explorar_lista dirFalla cwd prof max_prof resto with
        | .error p => .error p
        | .ok fs2 => .ok (fs ++ fs2)
  | .file nombre :: resto =>
    if terminaCon ".json".data nombre.data then
      match explorar_lista dirFalla cwd prof max_prof resto with
      | .error p => .error p
      | .ok fs => .ok ((cwd ++ [nombre]) :: fs)
    else
      explorar_lista dirFalla cwd prof max_prof resto

/-- Embeds `explorar_directorio` (download.py:286-331): return at once past the
depth bound, list the working directory (which may raise), then run the
entry loop.  The result is the list of file paths handed to
`procesar_archivo_ftp`, or the propagating exception with the working
directory at the raise. -/
def explorar_directorio (dirFalla : List String → Bool) (cwd : List String)
    (entradas : List FEntry) (prof max_prof : Nat) :
    Except (List String) (List (List String)) :=
  if prof > max_prof then .ok []
  else if dirFalla cwd then .error cwd
  else explorar_lista dirFalla cwd prof max_prof entradas

theorem Timestamp.leb_refl (a : Timestamp) : a.leb a = true := by
  simp [Timestamp.leb]

theorem Timestamp.leb_trans {a b c : Timestamp} (h1 : a.leb b = true)
    (h2 : b.leb c = true) : a.leb c = true := by
  simp only [Timestamp.leb, decide_eq_true_eq] at h1 h2 ⊢
  omega

theorem Timestamp.leb_total (a b : Timestamp) : a.leb b = true ∨ b.leb a = true := by
  simp only [Timestamp.leb, decide_eq_true_eq]
  omega

theorem Timestamp.ltb_irrefl (a : Timestamp) : a.ltb a = false := by
  simp [Timestamp.ltb]

/-- The fold of `max_fecha?` from a seed yields an element of the seeded
list that bounds all of it. -/
theorem max_fecha?_foldl (l : List Timestamp) : ∀ m0 : Timestamp,
    ∃ m, l.foldl (fun acc t =>
        match acc with
        | none => some t
        | some m => if m.leb t then some t else some m) (some m0) = some m ∧
      (m = m0 ∨ m ∈ l) ∧ m0.leb m = true ∧ ∀ t ∈ l, t.leb m = true := by
  induction l with
  | nil =>
    intro m0
    exact ⟨m0, rfl, Or.inl rfl, Timestamp.leb_refl m0, by simp⟩
  | cons t l ih =>
    intro m0
    by_cases h : m0.leb t = true
    · obtain ⟨m, hfold, hmem, hle, hall⟩ := ih t
      refine ⟨m, ?_, ?_, Timestamp.leb_trans h hle, ?_⟩
      · simpa [h] using hfold
      · rcases hmem with rfl | hm
        · exact Or.inr (List.mem_cons_self _ _)
        · exact Or.inr (List.mem_cons_of_mem _ hm)
      · intro u hu
        rcases List.mem_cons.mp hu with rfl | hu
        · exact hle
        · exact hall u hu
    · obtain ⟨m, hfold, hmem, hle, hall⟩ := ih m0
      refine ⟨m, ?_, ?_, hle, ?_⟩
      · simpa [h] using hfold
      · rcases hmem with rfl | hm
        · exact Or.inl rfl
        · exact Or.inr (List.mem_cons_of_mem _ hm)
      · intro u hu
        rcases List.mem_cons.mp hu with rfl | hu
        · rcases Timestamp.leb_total u m0 with h' | h'
          · exact Timestamp.leb_trans h' hle
          · exact absurd h' (by simpa using h)
        · exact hall u hu

/-- A nonempty table has a maximum, and `max_fecha?` returns it. -/
theorem max_fecha?_spec (l : List Timestamp) (hne : l ≠ []) :
    ∃ m, max_fecha? l = some m ∧ m ∈ l ∧ ∀ t ∈ l, t.leb m = true := by
  match l, hne with
  | t :: l, _ =>
    obtain ⟨m, hfold, hmem, hle0, hall⟩ := max_fecha?_foldl l t
    refine ⟨m, hfold, ?_, ?_⟩
    · rcases hmem with rfl | hm
      · exact List.mem_cons_self _ _
      · exact List.mem_cons_of_mem _ hm
    · intro u hu
      rcases List.mem_cons.mp hu with rfl | hu
      · exact hle0
      · exact hall u hu

/-- C3.  Record-level freshness is a strict comparison against the full
baseline timestamp: with a baseline present, a record is kept exactly
when it has a `'Date'` strictly greater than the baseline — in
particular a record dated exactly at the baseline is rejected and one
dated one second later is admitted — and with no baseline the whole
batch passes through. -/
theorem C3_freshness_boundary (uf : Timestamp) (datos : List Dato) (dato : Dato) :
    (dato ∈ filtrar_datos (some uf) datos ↔
      dato ∈ datos ∧ ∃ t, dato.date = some t ∧ uf.ltb t = true) ∧
    (dato.date = some uf → dato ∉ filtrar_datos (some uf) datos) ∧
    (dato.date = some ⟨uf.date, uf.time + 1⟩ → dato ∈ datos →
      dato ∈ filtrar_datos (some uf) datos) ∧
    filtrar_datos none datos = datos := by
  have hmem : dato ∈ filtrar_datos (some uf) datos ↔
      dato ∈ datos ∧ ∃ t, dato.date = some t ∧ uf.ltb t = true := by
    simp only [filtrar_datos, List.mem_filter]
    constructor
    · rintro ⟨hd, hp⟩
      refine ⟨hd, ?_⟩
      cases h : dato.date with
      | none => rw [h] at hp; exact absurd hp (by simp)
      | some t => rw [h] at hp; exact ⟨t, rfl, hp⟩
    · rintro ⟨hd, t, ht, hlt⟩
      exact ⟨hd, by rw [ht]; exact hlt⟩
  refine ⟨hmem, ?_, ?_, rfl⟩
  · intro hd hin
    obtain ⟨_, t, ht, hlt⟩ := hmem.mp hin
    rw [hd] at ht
    cases ht
    rw [Timestamp.ltb_irrefl] at hlt
    exact absurd hlt (by simp)
  · intro hd hin
    refine hmem.mpr ⟨hin, ⟨uf.date, uf.time + 1⟩, hd, ?_⟩
    simp only [Timestamp.ltb, decide_eq_true_eq]
    exact Or.inr ⟨trivial, Or.inr ⟨trivial, Or.inr ⟨trivial, Nat.lt_succ_self _⟩⟩⟩

/-- C3 at a concrete input: a record dated exactly at the baseline is
rejected while its one-second-later sibling is admitted. -/
theorem C3_freshness_boundary_witness :
    (⟨some ⟨⟨2024, 1, 15⟩, 10⟩, some "Agoyan", some "1"⟩ : Dato) ∉
      filtrar_datos (some ⟨⟨2024, 1, 15⟩, 10⟩)
        [⟨some ⟨⟨2024, 1, 15⟩, 10⟩, some "Agoyan", some "1"⟩,
         ⟨some ⟨⟨2024, 1, 15⟩, 11⟩, some "Agoyan", some "2"⟩] ∧
    (⟨some ⟨⟨2024, 1, 15⟩, 11⟩, some "Agoyan", some "2"⟩ : Dato) ∈
      filtrar_datos (some ⟨⟨2024, 1, 15⟩, 10⟩)
        [⟨some ⟨⟨2024, 1, 15⟩, 10⟩, some "Agoyan", some "1"⟩,
         ⟨some ⟨⟨2024, 1, 15⟩, 11⟩, some "Agoyan", some "2"⟩] := by
  constructor
  · exact (C3_freshness_boundary ⟨⟨2024, 1, 15⟩, 10⟩ _ _).2.1 rfl
  · exact (C3_freshness_boundary ⟨⟨2024, 1, 15⟩, 10⟩ _ _).2.2.1 rfl (by simp)

/-- C7.  The cursor reader returns the maximum stored timestamp, and
`None` both on an empty table and on a raising query; an absent
baseline admits every file at the file level and every record at the
record level. -/
theorem C7_cursor_reader (tabla : List Timestamp) (nombre : String) (datos : List Dato) :
    obtener_ultima_fecha true tabla = none ∧
    obtener_ultima_fecha false [] = none ∧
    (tabla ≠ [] → ∃ m, obtener_ultima_fecha false tabla = some m ∧
      m ∈ tabla ∧ ∀ t ∈ tabla, t.leb m = true) ∧
    es_archivo_reciente nombre none = true ∧
    filtrar_datos none datos = datos := by
  refine ⟨rfl, rfl, ?_, rfl, rfl⟩
  intro hne
  simpa [obtener_ultima_fecha] using max_fecha?_spec tabla hne

/-- C7 at a concrete input: a two-row table yields its maximum, and the
absent baseline admits a concrete file and batch. -/
theorem C7_cursor_reader_witness :
    (∃ m, obtener_ultima_fecha false
        [⟨⟨2024, 1, 15⟩, 10⟩, ⟨⟨2024, 2, 1⟩, 0⟩] = some m ∧
      m ∈ [(⟨⟨2024, 1, 15⟩, 10⟩ : Timestamp), ⟨⟨2024, 2, 1⟩, 0⟩] ∧
      ∀ t ∈ [(⟨⟨2024, 1, 15⟩, 10⟩ : Timestamp), ⟨⟨2024, 2, 1⟩, 0⟩],
        t.leb m = true) ∧
    es_archivo_reciente "caudales_20240115.json" none = true := by
  constructor
  · exact (C7_cursor_reader [⟨⟨2024, 1, 15⟩, 10⟩, ⟨⟨2024, 2, 1⟩, 0⟩]
      "caudales_20240115.json" []).2.2.1 (by simp)
  · exact (C7_cursor_reader [] "caudales_20240115.json" []).2.2.2.1

/-- C6.  The file-level freshness check fails open: whatever the
baseline, a file name with no underscore-delimited token beginning with
`"202"` is admitted, and so is one whose first such token does not parse
as `%Y%m%d`; in particular a name dated in the next decade
(`caudales_20340115.json`) is admitted against every baseline. -/
theorem C6_file_freshness_fail_open (nombre : String) (ultima : Option Timestamp) :
    ((splitChar '_' nombre.data).find? (fun p => empiezaCon "202".data p) = none →
      es_archivo_reciente nombre ultima = true) ∧
    (∀ tok, (splitChar '_' nombre.data).find? (fun p => empiezaCon "202".data p) = some tok →
      strptimeYmd tok = none → es_archivo_reciente nombre ultima = true) ∧
    (∀ uf, es_archivo_reciente "caudales_20340115.json" (some uf) = true) := by
  refine ⟨?_, ?_, ?_⟩
  · intro hfind
    cases ultima with
    | none => rfl
    | some uf =>
      simp only [es_archivo_reciente]
      split
      · rw [hfind]
      · rfl
  · intro tok hfind hparse
    cases ultima with
    | none => rfl
    | some uf =>
      simp only [es_archivo_reciente]
      split
      · rw [hfind]
        simp only [hparse]
      · rfl
  · intro uf
    simp only [es_archivo_reciente]
    split
    · have hfind : (splitChar '_' "caudales_20340115.json".data).find?
          (fun p => empiezaCon "202".data p) = none := by decide
      rw [hfind]
    · rfl

/-- C6 at a concrete input: the canonical data-file name
`caudales_20240115.json` has `"20240115.json"` as its first
`"202"`-token, the trailing `.json` makes `strptime` raise, and the
file is admitted against a strictly later baseline. -/
theorem C6_file_freshness_fail_open_witness :
    ((splitChar '_' "caudales_20240115.json".data).find?
        (fun p => empiezaCon "202".data p) = some "20240115.json".data) ∧
    strptimeYmd "20240115.json".data = none ∧
    es_archivo_reciente "caudales_20240115.json"
      (some ⟨⟨2024, 6, 1⟩, 0⟩) = true := by
  refine ⟨by decide, by decide, ?_⟩
  exact (C6_file_freshness_fail_open "caudales_20240115.json"
    (some ⟨⟨2024, 6, 1⟩, 0⟩)).2.1 "20240115.json".data (by decide) (by decide)

/-- One attempted `INSERT` of an already-built row: commit-and-count or
rollback-and-count. -/
def pasoFila (insertOk : Row → List Row → Bool) (st : EstadoBD) (r : Row) : EstadoBD :=
  if insertOk r st.filas then
    { st with filas := st.filas ++ [r], insertados := st.insertados + 1 }
  else
    { st with fallidos := st.fallidos + 1 }

theorem procesar_dato_eq (insertOk : Row → List Row → Bool) (st : EstadoBD) (dato : Dato) :
    procesar_dato insertOk st dato =
      match toRow dato with
      | none => st
      | some r => pasoFila insertOk st r := by
  cases hv : dato.value with
  | none => simp [procesar_dato, toRow, hv]
  | some vt =>
    cases hp : parseFloat vt with
    | none => simp [procesar_dato, toRow, hv, hp]
    | some v => simp [procesar_dato, toRow, pasoFila, hv, hp]

theorem insertar_datos_eq_filterMap (insertOk : Row → List Row → Bool) (datos : List Dato) :
    ∀ st : EstadoBD,
      datos.foldl (procesar_dato insertOk) st =
        (datos.filterMap toRow).foldl (pasoFila insertOk) st := by
  induction datos with
  | nil => intro st; rfl
  | cons d resto ih =>
    intro st
    rw [List.foldl_cons, ih, procesar_dato_eq]
    cases h : toRow d with
    | none => rw [List.filterMap_cons_none h]
    | some r => rw [List.filterMap_cons_some h, List.foldl_cons]

theorem foldl_pasoFila_all_ok (insertOk : Row → List Row → Bool) (rows : List Row)
    (h : ∀ r ∈ rows, ∀ db, insertOk r db = true) : ∀ st : EstadoBD,
      rows.foldl (pasoFila insertOk) st =
        ⟨st.filas ++ rows, st.insertados + rows.length, st.fallidos⟩ := by
  induction rows with
  | nil => intro st; simp
  | cons r resto ih =>
    intro st
    rw [List.foldl_cons]
    have hr : pasoFila insertOk st r =
        { st with filas := st.filas ++ [r], insertados := st.insertados + 1 } := by
      simp [pasoFila, h r (List.mem_cons_self _ _)]
    rw [hr, ih (fun r' hr' db => h r' (List.mem_cons_of_mem _ hr') db)]
    congr 1
    · simp
    · simp only [List.length_cons]
      omega

/-- C1.  Per-record write fault isolation: if the admitted rows of a
batch split as `pre ++ rk :: post`, the insert of `rk` fails whatever
the table state, and every other row's insert succeeds, then the final
table holds exactly the old rows plus `pre ++ post` (only `rk`'s
transaction rolled back), the failure counter ends at one, and the
success counter counts all other rows. -/
theorem C1_fault_isolation (insertOk : Row → List Row → Bool) (filas : List Row)
    (datos : List Dato) (pre post : List Row) (rk : Row)
    (hsplit : datos.filterMap toRow = pre ++ rk :: post)
    (hfail : ∀ db, insertOk rk db = false)
    (hsucc : ∀ r, r ∈ pre ∨ r ∈ post → ∀ db, insertOk r db = true) :
    insertar_datos insertOk filas datos =
      ⟨filas ++ (pre ++ post), pre.length + post.length, 1⟩ := by
  have h0 : insertar_datos insertOk filas datos =
      datos.foldl (procesar_dato insertOk) ⟨filas, 0, 0⟩ := rfl
  rw [h0, insertar_datos_eq_filterMap, hsplit, List.foldl_append,
    foldl_pasoFila_all_ok insertOk pre (fun r hr => hsucc r (Or.inl hr)),
    List.foldl_cons]
  have hk : pasoFila insertOk ⟨filas ++ pre, 0 + pre.length, 0⟩ rk =
      ⟨filas ++ pre, 0 + pre.length, 1⟩ := by
    simp [pasoFila, hfail]
  rw [hk, foldl_pasoFila_all_ok insertOk post (fun r hr => hsucc r (Or.inr hr))]
  congr 1
  · simp
  · show 0 + pre.length + post.length = pre.length + post.length
    omega

/-- C1 at a concrete input: in a three-record batch whose middle row is
rejected by the store (a per-row constraint), the other two rows are
committed, two successes and one failure are counted. -/
theorem C1_fault_isolation_witness :
    ∃ r1 rk r3,
      ([⟨some ⟨⟨2024, 1, 15⟩, 0⟩, some "A", some "1"⟩,
        ⟨some ⟨⟨2024, 1, 15⟩, 0⟩, some "B", some "2"⟩,
        ⟨some ⟨⟨2024, 1, 15⟩, 0⟩, some "C", some "3"⟩] : List Dato).filterMap toRow =
        [r1, rk, r3] ∧
      insertar_datos (fun r _ => r.nombre_estacion != some "B") []
        [⟨some ⟨⟨2024, 1, 15⟩, 0⟩, some "A", some "1"⟩,
         ⟨some ⟨⟨2024, 1, 15⟩, 0⟩, some "B", some "2"⟩,
         ⟨some ⟨⟨2024, 1, 15⟩, 0⟩, some "C", some "3"⟩] = ⟨[r1, r3], 2, 1⟩ := by
  obtain ⟨r1, h1⟩ := Option.isSome_iff_exists.mp
    (show (toRow ⟨some ⟨⟨2024, 1, 15⟩, 0⟩, some "A", some "1"⟩).isSome = true by decide)
  obtain ⟨rk, hk⟩ := Option.isSome_iff_exists.mp
    (show (toRow ⟨some ⟨⟨2024, 1, 15⟩, 0⟩, some "B", some "2"⟩).isSome = true by decide)
  obtain ⟨r3, h3⟩ := Option.isSome_iff_exists.mp
    (show (toRow ⟨some ⟨⟨2024, 1, 15⟩, 0⟩, some "C", some "3"⟩).isSome = true by decide)
  have p1 : r1.nombre_estacion = some "A" := by
    have hmap : (toRow ⟨some ⟨⟨2024, 1, 15⟩, 0⟩, some "A", some "1"⟩).map
        Row.nombre_estacion = some (some "A") := rfl
    rw [h1] at hmap
    simpa using hmap
  have pk : rk.nombre_estacion = some "B" := by
    have hmap : (toRow ⟨some ⟨⟨2024, 1, 15⟩, 0⟩, some "B", some "2"⟩).map
        Row.nombre_estacion = some (some "B") := rfl
    rw [hk] at hmap
    simpa using hmap
  have p3 : r3.nombre_estacion = some "C" := by
    have hmap : (toRow ⟨some ⟨⟨2024, 1, 15⟩, 0⟩, some "C", some "3"⟩).map
        Row.nombre_estacion = some (some "C") := rfl
    rw [h3] at hmap
    simpa using hmap
  have hsplit : ([⟨some ⟨⟨2024, 1, 15⟩, 0⟩, some "A", some "1"⟩,
      ⟨some ⟨⟨2024, 1, 15⟩, 0⟩, some "B", some "2"⟩,
      ⟨some ⟨⟨2024, 1, 15⟩, 0⟩, some "C", some "3"⟩] : List Dato).filterMap toRow =
      [r1, rk, r3] := by
    rw [List.filterMap_cons_some h1, List.filterMap_cons_some hk,
      List.filterMap_cons_some h3, List.filterMap_nil]
  have hmain := C1_fault_isolation (fun r _ => r.nombre_estacion != some "B") []
    _ [r1] [r3] rk hsplit
    (fun db => by simp [pk])
    (fun r hr db => by
      rcases hr with hr | hr <;> rw [List.mem_singleton] at hr <;> subst r
      · show (r1.nombre_estacion != some "B") = true
        rw [p1]
        decide
      · show (r3.nombre_estacion != some "B") = true
        rw [p3]
        decide)
  exact ⟨r1, rk, r3, hsplit, by simpa using hmain⟩

/-- C8.  Fallback enrichment: an admitted record whose station name has
no registry entry still produces a row — persisted when its insert
succeeds — with latitude and longitude `(0, 0)`; the missing entry is
never fatal. -/
theorem C8_fallback_enrichment (insertOk : Row → List Row → Bool) (filas : List Row)
    (dato : Dato) (vt : String) (v : ℚ)
    (hn : buscarEstacion dato.nCommon = none)
    (hv : dato.value = some vt)
    (hp : parseFloat vt = some v)
    (hok : ∀ db, insertOk ⟨0, 0, dato.nCommon, dato.date, round3 v⟩ db = true) :
    toRow dato = some ⟨0, 0, dato.nCommon, dato.date, round3 v⟩ ∧
    insertar_datos insertOk filas [dato] =
      ⟨filas ++ [⟨0, 0, dato.nCommon, dato.date, round3 v⟩], 1, 0⟩ := by
  have ht : toRow dato = some ⟨0, 0, dato.nCommon, dato.date, round3 v⟩ := by
    simp [toRow, hv, hp, hn]
  refine ⟨ht, ?_⟩
  have h0 : insertar_datos insertOk filas [dato] =
      procesar_dato insertOk ⟨filas, 0, 0⟩ dato := rfl
  rw [h0, procesar_dato_eq, ht]
  simp [pasoFila, hok]

/-- C8 at a concrete input: a record for an unregistered station is
persisted with coordinates `(0, 0)`. -/
theorem C8_fallback_enrichment_witness :
    buscarEstacion (some "Rio Desconocido") = none ∧
    ∃ v, parseFloat "7.25" = some v ∧
      insertar_datos (fun _ _ => true) []
        [⟨some ⟨⟨2024, 1, 15⟩, 0⟩, some "Rio Desconocido", some "7.25"⟩] =
        ⟨[⟨0, 0, some "Rio Desconocido", some ⟨⟨2024, 1, 15⟩, 0⟩, round3 v⟩], 1, 0⟩ := by
  obtain ⟨v, hv⟩ := Option.isSome_iff_exists.mp
    (show (parseFloat "7.25").isSome = true by decide)
  refine ⟨by decide, v, hv, ?_⟩
  have hmain := (C8_fallback_enrichment (fun _ _ => true) []
    ⟨some ⟨⟨2024, 1, 15⟩, 0⟩, some "Rio Desconocido", some "7.25"⟩ "7.25" v
    (by decide) rfl hv (fun db => rfl)).2
  simpa using hmain

/-- C9, counterexample.  A batch whose only record has a `None` value,
and one whose only record has a non-numeric value, both end with a
failure counter of zero (and nothing inserted): the drop is logged but
not counted, contradicting the claim that it enters the reported
failure count. -/
theorem C9_counterexample_drop_not_counted :
    insertar_datos (fun _ _ => true) []
      [⟨some ⟨⟨2024, 1, 15⟩, 0⟩, some "Agoyan", none⟩] = ⟨[], 0, 0⟩ ∧
    insertar_datos (fun _ _ => true) []
      [⟨some ⟨⟨2024, 1, 15⟩, 0⟩, some "Agoyan", some "sin dato"⟩] = ⟨[], 0, 0⟩ := by
  constructor <;> decide

/-- C9, amended.  A record with a missing or non-numeric value is
skipped outright (`continue`): it changes neither the table nor either
counter, so the run's failure count registers only records whose
`INSERT` itself failed. -/
theorem C9_amended_drop_only_logged (insertOk : Row → List Row → Bool)
    (filas : List Row) (dato : Dato) (resto : List Dato)
    (h : dato.value = none ∨ ∃ vt, dato.value = some vt ∧ parseFloat vt = none) :
    insertar_datos insertOk filas (dato :: resto) =
      insertar_datos insertOk filas resto := by
  have hd : procesar_dato insertOk ⟨filas, 0, 0⟩ dato = ⟨filas, 0, 0⟩ := by
    rcases h with h | ⟨vt, hv, hp⟩
    · simp [procesar_dato, h]
    · simp [procesar_dato, hv, hp]
  show List.foldl (procesar_dato insertOk)
      (procesar_dato insertOk ⟨filas, 0, 0⟩ dato) resto = _
  rw [hd]
  rfl

/-- C9, amended, at a concrete input: prepending a null-valued record
to a batch leaves the ingestor's outcome unchanged. -/
theorem C9_amended_drop_only_logged_witness :
    insertar_datos (fun _ _ => true) []
      [⟨some ⟨⟨2024, 1, 15⟩, 0⟩, some "Agoyan", none⟩,
       ⟨some ⟨⟨2024, 1, 16⟩, 0⟩, some "Mazar", some "4"⟩] =
      insertar_datos (fun _ _ => true) []
        [⟨some ⟨⟨2024, 1, 16⟩, 0⟩, some "Mazar", some "4"⟩] :=
  C9_amended_drop_only_logged (fun _ _ => true) []
    ⟨some ⟨⟨2024, 1, 15⟩, 0⟩, some "Agoyan", none⟩
    [⟨some ⟨⟨2024, 1, 16⟩, 0⟩, some "Mazar", some "4"⟩] (Or.inl rfl)

/-- C10.  A record without a `'Date'` key: with a baseline present the
record-level filter excludes it (it never reaches the ingestor); with
the baseline absent the filter is bypassed and the ingestor attempts
its insert with a `NULL` timestamp row. -/
theorem C10_missing_date_key (uf : Timestamp) (datos : List Dato) (dato : Dato)
    (insertOk : Row → List Row → Bool) (filas : List Row)
    (hd : dato.date = none) :
    dato ∉ filtrar_datos (some uf) datos ∧
    filtrar_datos none datos = datos ∧
    (∀ vt v, dato.value = some vt → parseFloat vt = some v →
      ∃ row, toRow dato = some row ∧ row.fecha_toma_dato = none ∧
        procesar_registros insertOk filas none [dato] =
          (if insertOk row filas then ⟨filas ++ [row], 1, 0⟩ else ⟨filas, 0, 1⟩)) := by
  refine ⟨?_, rfl, ?_⟩
  · intro hmem
    simp only [filtrar_datos, List.mem_filter, hd] at hmem
    exact Bool.false_ne_true hmem.2
  · intro vt v hv hp
    have ht : ∃ row, toRow dato = some row := by
      unfold toRow
      rw [hv]
      simp only [hp]
      exact ⟨_, rfl⟩
    obtain ⟨row, hrow⟩ := ht
    have hfecha : row.fecha_toma_dato = none := by
      have hmap : (toRow dato).map Row.fecha_toma_dato = some dato.date := by
        unfold toRow
        rw [hv]
        simp only [hp]
        rfl
      rw [hrow, hd] at hmap
      simpa using hmap
    refine ⟨row, hrow, hfecha, ?_⟩
    have h0 : procesar_registros insertOk filas none [dato] =
        procesar_dato insertOk ⟨filas, 0, 0⟩ dato := rfl
    rw [h0, procesar_dato_eq, hrow]
    by_cases hok : insertOk row filas
    · simp [pasoFila, hok]
    · simp [pasoFila, hok]

/-- C10 at a concrete input: a dated baseline filters the `'Date'`-less
record out; no baseline lets it through and it is inserted with a
`NULL` timestamp. -/
theorem C10_missing_date_key_witness :
    (⟨none, some "Agoyan", some "3.5"⟩ : Dato) ∉
      filtrar_datos (some ⟨⟨2024, 1, 15⟩, 0⟩) [⟨none, some "Agoyan", some "3.5"⟩] ∧
    ∃ row, toRow ⟨none, some "Agoyan", some "3.5"⟩ = some row ∧
      row.fecha_toma_dato = none ∧
      procesar_registros (fun _ _ => true) [] none
        [⟨none, some "Agoyan", some "3.5"⟩] = ⟨[row], 1, 0⟩ := by
  obtain ⟨v, hv⟩ := Option.isSome_iff_exists.mp
    (show (parseFloat "3.5").isSome = true by decide)
  have hmain := C10_missing_date_key ⟨⟨2024, 1, 15⟩, 0⟩
    [⟨none, some "Agoyan", some "3.5"⟩] ⟨none, some "Agoyan", some "3.5"⟩
    (fun _ _ => true) [] rfl
  obtain ⟨row, hrow, hfecha, hproc⟩ := hmain.2.2 "3.5" v rfl hv
  exact ⟨hmain.1, row, hrow, hfecha, by simpa using hproc⟩

theorem explorar_lista_file_json (dirFalla : List String → Bool) (cwd : List String)
    (prof max_prof : Nat) (nombre : String) (resto : List FEntry)
    (hj : terminaCon ".json".data nombre.data = true) :
    explorar_lista dirFalla cwd prof max_prof (.file nombre :: resto) =
      match explorar_lista dirFalla cwd prof max_prof resto with
      | .error p => .error p
      | .ok fs => .ok ((cwd ++ [nombre]) :: fs) := by
  rw [explorar_lista.eq_def]
  simp only [hj]
  rfl

theorem explorar_lista_file_otro (dirFalla : List String → Bool) (cwd : List String)
    (prof max_prof : Nat) (nombre : String) (resto : List FEntry)
    (hj : terminaCon ".json".data nombre.data = false) :
    explorar_lista dirFalla cwd prof max_prof (.file nombre :: resto) =
      explorar_lista dirFalla cwd prof max_prof resto := by
  rw [explorar_lista.eq_def]
  simp only [hj]
  rfl

theorem explorar_lista_dir_excluido (dirFalla : List String → Bool) (cwd : List String)
    (prof max_prof : Nat) (nombre : String) (hijos resto : List FEntry)
    (hex : es_directorio_excluido nombre = true) :
    explorar_lista dirFalla cwd prof max_prof (.dir nombre hijos :: resto) =
      explorar_lista dirFalla cwd prof max_prof resto := by
  rw [explorar_lista.eq_def]
  simp only [hex]
  rfl

theorem explorar_lista_dir_abierto (dirFalla : List String → Bool) (cwd : List String)
    (prof max_prof : Nat) (nombre : String) (hijos resto : List FEntry)
    (hex : es_directorio_excluido nombre = false) :
    explorar_lista dirFalla cwd prof max_prof (.dir nombre hijos :: resto) =
      match (if prof + 1 > max_prof then Except.ok []
             else if dirFalla (cwd ++ [nombre]) then Except.error (cwd ++ [nombre])
             else explorar_lista dirFalla (cwd ++ [nombre]) (prof + 1) max_prof hijos) with
      | .error p => .error p
      | .ok fs =>
        match explorar_lista dirFalla cwd prof max_prof resto with
        | .error p => .error p
        | .ok fs2 => .ok (fs ++ fs2) := by
  rw [explorar_lista.eq_def]
  simp only [hex]
  rfl

/-- Invariant of the entry loop: every file path it hands over extends
the working directory by a nonempty suffix whose length respects the
remaining depth budget and whose directory components are never
excluded; a propagating exception carries the working directory of the
raising `ftp.dir`, again below no excluded directory. -/
theorem explorar_lista_inv (dirFalla : List String → Bool) :
    ∀ (n : Nat) (l : List FEntry), sizeOf l ≤ n →
      ∀ (cwd : List String) (prof max_prof : Nat),
      (∀ fs, explorar_lista dirFalla cwd prof max_prof l = .ok fs →
        ∀ f ∈ fs, ∃ suf, f = cwd ++ suf ∧ suf ≠ [] ∧
          suf.length ≤ max_prof - prof + 1 ∧
          ∀ c ∈ suf.dropLast, es_directorio_excluido c = false) ∧
      (∀ p, explorar_lista dirFalla cwd prof max_prof l = .error p →
        dirFalla p = true ∧ ∃ suf, p = cwd ++ suf ∧
          ∀ c ∈ suf, es_directorio_excluido c = false) := by
  intro n
  induction n with
  | zero =>
    intro l hl
    exfalso
    cases l <;> simp_arith at hl
  | succ n ih =>
    intro l hl cwd prof max_prof
    cases l with
    | nil =>
      constructor
      · intro fs hfs f hf
        rw [explorar_lista.eq_1] at hfs
        cases hfs
        simp at hf
      · intro p hp
        rw [explorar_lista.eq_1] at hp
        exact absurd hp (by simp)
    | cons e resto =>
      cases e with
      | file nombre =>
        have hresto : sizeOf resto ≤ n := by
          simp_arith at hl
          omega
        by_cases hj : terminaCon ".json".data nombre.data = true
        · constructor
          · intro fs hfs f hf
            rw [explorar_lista_file_json dirFalla cwd prof max_prof nombre resto hj] at hfs
            cases hrec : explorar_lista dirFalla cwd prof max_prof resto with
            | error p => rw [hrec] at hfs; exact absurd hfs (by simp)
            | ok fs0 =>
              rw [hrec] at hfs
              cases hfs
              rcases List.mem_cons.mp hf with rfl | hf0
              · exact ⟨[nombre], rfl, by simp,
                  by simp only [List.length_cons, List.length_nil]; omega, by simp⟩
              · exact ((ih resto hresto cwd prof max_prof).1 fs0 hrec f hf0)
          · intro p hp
            rw [explorar_lista_file_json dirFalla cwd prof max_prof nombre resto hj] at hp
            cases hrec : explorar_lista dirFalla cwd prof max_prof resto with
            | error p0 =>
              rw [hrec] at hp
              cases hp
              exact (ih resto hresto cwd prof max_prof).2 p hrec
            | ok fs0 => rw [hrec] at hp; exact absurd hp (by simp)
        · rw [Bool.not_eq_true] at hj
          rw [explorar_lista_file_otro dirFalla cwd prof max_prof nombre resto hj]
          exact ih resto hresto cwd prof max_prof
      | dir nombre hijos =>
        have hresto : sizeOf resto ≤ n := by
          simp_arith at hl
          omega
        have hhijos : sizeOf hijos ≤ n := by
          simp_arith at hl
          omega
        by_cases hex : es_directorio_excluido nombre = true
        · rw [explorar_lista_dir_excluido dirFalla cwd prof max_prof nombre hijos resto hex]
          exact ih resto hresto cwd prof max_prof
        · rw [Bool.not_eq_true] at hex
          rw [explorar_lista_dir_abierto dirFalla cwd prof max_prof nombre hijos resto hex]
          by_cases hprof : prof + 1 > max_prof
          · rw [if_pos hprof]
            constructor
            · intro fs hfs f hf
              cases hrec : explorar_lista dirFalla cwd prof max_prof resto with
              | error p0 => rw [hrec] at hfs; exact absurd hfs (by simp)
              | ok fs2 =>
                rw [hrec] at hfs
                have hfs2 : Except.ok (ε := List String) (([] : List (List String)) ++ fs2) =
                    Except.ok fs := hfs
                cases hfs2
                exact (ih resto hresto cwd prof max_prof).1 fs2 hrec f (by simpa using hf)
            · intro p hp
              cases hrec : explorar_lista dirFalla cwd prof max_prof resto with
              | error p0 =>
                rw [hrec] at hp
                have hp2 : Except.error (α := List (List String)) p0 = Except.error p := hp
                cases hp2
                exact (ih resto hresto cwd prof max_prof).2 p hrec
              | ok fs2 => rw [hrec] at hp; exact absurd hp (by simp)
          · rw [if_neg hprof]
            by_cases hfalla : dirFalla (cwd ++ [nombre]) = true
            · rw [if_pos hfalla]
              constructor
              · intro fs hfs
                exact absurd hfs (by simp)
              · intro p hp
                have hp2 : Except.error (α := List (List String)) (cwd ++ [nombre]) =
                    Except.error p := hp
                cases hp2
                refine ⟨hfalla, [nombre], rfl, ?_⟩
                intro c hc
                rw [List.mem_singleton] at hc
                subst hc
                exact hex
            · rw [if_neg hfalla]
              rw [Bool.not_eq_true] at hfalla
              cases hsub : explorar_lista dirFalla (cwd ++ [nombre]) (prof + 1) max_prof hijos with
              | error p0 =>
                constructor
                · intro fs hfs
                  exact absurd hfs (by simp)
                · intro p hp
                  have hp2 : Except.error (α := List (List String)) p0 = Except.error p := hp
                  have hpe : p0 = p := by injection hp2
                  subst hpe
                  obtain ⟨hdf, suf, hsuf, hcomp⟩ :=
                    (ih hijos hhijos (cwd ++ [nombre]) (prof + 1) max_prof).2 p0 hsub
                  refine ⟨hdf, nombre :: suf, by simp [hsuf], ?_⟩
                  intro c hc
                  rcases List.mem_cons.mp hc with rfl | hc
                  · exact hex
                  · exact hcomp c hc
              | ok fs1 =>
                constructor
                · intro fs hfs f hf
                  cases hrec : explorar_lista dirFalla cwd prof max_prof resto with
                  | error p0 => rw [hrec] at hfs; exact absurd hfs (by simp)
                  | ok fs2 =>
                    rw [hrec] at hfs
                    have hfs2 : Except.ok (ε := List String) (fs1 ++ fs2) = Except.ok fs := hfs
                    cases hfs2
                    rcases List.mem_append.mp hf with hf1 | hf2
                    · obtain ⟨suf, hsuf, hne, hlen, hcomp⟩ :=
                        (ih hijos hhijos (cwd ++ [nombre]) (prof + 1) max_prof).1 fs1 hsub f hf1
                      refine ⟨nombre :: suf, by simp [hsuf], by simp, ?_, ?_⟩
                      · simp only [List.length_cons]
                        omega
                      · intro c hc
                        cases suf with
                        | nil => exact absurd rfl hne
                        | cons s ss =>
                          rcases List.mem_cons.mp hc with rfl | hc
                          · exact hex
                          · exact hcomp c hc
                    · exact (ih resto hresto cwd prof max_prof).1 fs2 hrec f hf2
                · intro p hp
                  cases hrec : explorar_lista dirFalla cwd prof max_prof resto with
                  | error p0 =>
                    rw [hrec] at hp
                    have hp2 : Except.error (α := List (List String)) p0 = Except.error p := hp
                    cases hp2
                    exact (ih resto hresto cwd prof max_prof).2 p hrec
                  | ok fs2 => rw [hrec] at hp; exact absurd hp (by simp)

/-- C2.  Exclusion invariant: the walker hands over only file paths
that pass through no directory whose name case-insensitively equals
`"historica"`, and even a propagating listing failure can only name a
working directory that descends through no excluded name — the walker
never enters or lists an excluded subtree, so no file beneath one is
ever handed to the per-file pipeline. -/
theorem C2_exclusion_invariant (dirFalla : List String → Bool) (cwd : List String)
    (entradas : List FEntry) (prof max_prof : Nat) :
    (∀ fs, explorar_directorio dirFalla cwd entradas prof max_prof = .ok fs →
      ∀ f ∈ fs, ∃ suf, f = cwd ++ suf ∧ suf ≠ [] ∧
        ∀ c ∈ suf.dropLast, es_directorio_excluido c = false) ∧
    (∀ p, explorar_directorio dirFalla cwd entradas prof max_prof = .error p →
      ∃ suf, p = cwd ++ suf ∧ ∀ c ∈ suf, es_directorio_excluido c = false) := by
  unfold explorar_directorio
  by_cases h1 : prof > max_prof
  · rw [if_pos h1]
    constructor
    · intro fs hfs f hf
      have h2 : Except.ok (ε := List String) ([] : List (List String)) = Except.ok fs := hfs
      cases h2
      simp at hf
    · intro p hp
      exact absurd hp (by simp)
  · rw [if_neg h1]
    by_cases h2 : dirFalla cwd = true
    · rw [if_pos h2]
      constructor
      · intro fs hfs
        exact absurd hfs (by simp)
      · intro p hp
        have h3 : Except.error (α := List (List String)) cwd = Except.error p := hp
        have hpe : cwd = p := by injection h3
        exact ⟨[], by simp [hpe.symm], by simp⟩
    · rw [if_neg h2]
      constructor
      · intro fs hfs f hf
        obtain ⟨suf, hsuf, hne, _, hcomp⟩ :=
          (explorar_lista_inv dirFalla (sizeOf entradas) entradas le_rfl
            cwd prof max_prof).1 fs hfs f hf
        exact ⟨suf, hsuf, hne, hcomp⟩
      · intro p hp
        obtain ⟨_, suf, hsuf, hcomp⟩ :=
          (explorar_lista_inv dirFalla (sizeOf entradas) entradas le_rfl
            cwd prof max_prof).2 p hp
        exact ⟨suf, hsuf, hcomp⟩

/-- C2 at a concrete input: a tree with a `Historica` subtree holding a
data file yields only the sibling file outside it, and the theorem's
conclusion holds of that output. -/
theorem C2_exclusion_invariant_witness :
    explorar_directorio (fun _ => false) ["raiz"]
      [.dir "Historica" [.file "viejo.json"], .file "nuevo.json"] 0 5 =
      .ok [["raiz", "nuevo.json"]] ∧
    ∀ f ∈ [["raiz", "nuevo.json"]], ∃ suf, f = ["raiz"] ++ suf ∧ suf ≠ [] ∧
      ∀ c ∈ suf.dropLast, es_directorio_excluido c = false := by
  have heval : explorar_directorio (fun _ => false) ["raiz"]
      [.dir "Historica" [.file "viejo.json"], .file "nuevo.json"] 0 5 =
      .ok [["raiz", "nuevo.json"]] := by
    simp [explorar_directorio, explorar_lista,
      (by decide : es_directorio_excluido "Historica" = true),
      (by decide : terminaCon ".json".data "nuevo.json".data = true)]
  exact ⟨heval,
    (C2_exclusion_invariant (fun _ => false) ["raiz"]
      [.dir "Historica" [.file "viejo.json"], .file "nuevo.json"] 0 5).1 _ heval⟩

/-- C5.  Depth bound: a call past the depth limit abandons the branch
with a non-fatal empty result, and every file the walker hands over
lies within the depth budget — a file nested deeper than the maximum
is never yielded. -/
theorem C5_depth_bound (dirFalla : List String → Bool) (cwd : List String)
    (entradas : List FEntry) (prof max_prof : Nat) :
    (prof > max_prof →
      explorar_directorio dirFalla cwd entradas prof max_prof = .ok []) ∧
    (∀ fs, explorar_directorio dirFalla cwd entradas prof max_prof = .ok fs →
      ∀ f ∈ fs, f.length ≤ cwd.length + (max_prof - prof) + 1) := by
  constructor
  · intro h
    unfold explorar_directorio
    rw [if_pos h]
  · intro fs h f hf
    unfold explorar_directorio at h
    by_cases h1 : prof > max_prof
    · rw [if_pos h1] at h
      have h2 : Except.ok (ε := List String) ([] : List (List String)) = Except.ok fs := h
      cases h2
      simp at hf
    · rw [if_neg h1] at h
      by_cases h2 : dirFalla cwd = true
      · rw [if_pos h2] at h
        exact absurd h (by simp)
      · rw [if_neg h2] at h
        obtain ⟨suf, hsuf, _, hlen, _⟩ :=
          (explorar_lista_inv dirFalla (sizeOf entradas) entradas le_rfl
            cwd prof max_prof).1 fs h f hf
        subst hsuf
        rw [List.length_append]
        omega

/-- C5 at a concrete input: with maximum depth 1, a call already past
the limit yields nothing, and a file two directories down is not among
the files the walk hands over while the in-budget sibling is. -/
theorem C5_depth_bound_witness :
    explorar_directorio (fun _ => false) ["raiz", "a", "b"]
      [.file "profundo.json"] 2 1 = .ok [] ∧
    explorar_directorio (fun _ => false) ["raiz"]
      [.dir "a" [.dir "b" [.file "profundo.json"]], .file "cima.json"] 0 1 =
      .ok [["raiz", "cima.json"]] ∧
    ∀ f ∈ [["raiz", "cima.json"]],
      f.length ≤ (["raiz"] : List String).length + (1 - 0) + 1 := by
  have heval : explorar_directorio (fun _ => false) ["raiz"]
      [.dir "a" [.dir "b" [.file "profundo.json"]], .file "cima.json"] 0 1 =
      .ok [["raiz", "cima.json"]] := by
    simp [explorar_directorio, explorar_lista,
      (by decide : es_directorio_excluido "a" = false),
      (by decide : es_directorio_excluido "b" = false),
      (by decide : terminaCon ".json".data "cima.json".data = true)]
  refine ⟨(C5_depth_bound (fun _ => false) ["raiz", "a", "b"]
      [.file "profundo.json"] 2 1).1 (by omega), heval, ?_⟩
  exact (C5_depth_bound (fun _ => false) ["raiz"]
    [.dir "a" [.dir "b" [.file "profundo.json"]], .file "cima.json"] 0 1).2 _ heval

/-- C4, counterexample.  When listing a subdirectory raises, the walk
terminates with the session's working directory still inside that
subdirectory — not restored to the saved parent — and the following
sibling is never processed, contradicting the claim that the saved
directory is restored even when the recursive call raised. -/
theorem C4_counterexample_no_restore :
    explorar_directorio (fun p => p == ["raiz", "a"]) ["raiz"]
      [.dir "a" [.file "x.json"], .file "hermano.json"] 0 5 =
      .error ["raiz", "a"] ∧
    (["raiz", "a"] : List String) ≠ ["raiz"] := by
  constructor
  · simp [explorar_directorio, explorar_lista,
      (by decide : es_directorio_excluido "a" = false),
      (by decide : ((["raiz", "a"] : List String) == ["raiz", "a"]) = true),
      (by decide : ((["raiz"] : List String) == ["raiz", "a"]) = false)]
  · decide

/-- C4, amended.  The saved directory is restored only when the
recursive exploration returns normally; when it raises, the restoration
is skipped, the exception propagates — aborting the remaining siblings —
and the session is left at the failing directory, a descendant of (or
equal to) the directory being listed. -/
theorem C4_amended_restore_only_on_ok (dirFalla : List String → Bool) (cwd : List String)
    (entradas : List FEntry) (prof max_prof : Nat) (p : List String)
    (h : explorar_directorio dirFalla cwd entradas prof max_prof = .error p) :
    dirFalla p = true ∧ ∃ suf, p = cwd ++ suf := by
  unfold explorar_directorio at h
  by_cases h1 : prof > max_prof
  · rw [if_pos h1] at h
    exact absurd h (by simp)
  · rw [if_neg h1] at h
    by_cases h2 : dirFalla cwd = true
    · rw [if_pos h2] at h
      have h3 : Except.error (α := List (List String)) cwd = Except.error p := h
      have hpe : cwd = p := by injection h3
      subst hpe
      exact ⟨h2, [], by simp⟩
    · rw [if_neg h2] at h
      obtain ⟨hdf, suf, hsuf, _⟩ :=
        (explorar_lista_inv dirFalla (sizeOf entradas) entradas le_rfl
          cwd prof max_prof).2 p h
      exact ⟨hdf, suf, hsuf⟩

/-- C4, amended, at a concrete input: the propagated error names the
failing subdirectory, strictly below the directory whose loop was
aborted. -/
theorem C4_amended_restore_only_on_ok_witness :
    (fun p => p == ["raiz", "a"]) (["raiz", "a"] : List String) = true ∧
    ∃ suf, (["raiz", "a"] : List String) = ["raiz"] ++ suf := by
  have heval : explorar_directorio (fun p => p == ["raiz", "a"]) ["raiz"]
      [.dir "a" [.file "x.json"], .file "hermano.json"] 0 5 =
      .error ["raiz", "a"] := by
    simp [explorar_directorio, explorar_lista,
      (by decide : es_directorio_excluido "a" = false),
      (by decide : ((["raiz", "a"] : List String) == ["raiz", "a"]) = true),
      (by decide : ((["raiz"] : List String) == ["raiz", "a"]) = false)]
  exact C4_amended_restore_only_on_ok (fun p => p == ["raiz", "a"]) ["raiz"]
    [.dir "a" [.file "x.json"], .file "hermano.json"] 0 5 ["raiz", "a"] heval

end Hidro
